import Mathlib

/-!
Verification of the yatogm fetch-dedupe-forward pipeline.

This file gives a shallow embedding of the Go sources:
* `internal/state/tracker.go` — the history store (`Tracker`): in-memory
  per-mailbox sets of fetched UIDs, persisted whole via temp-file + rename.
* `internal/pop3/client.go` — the POP3 client's `Retrieve` loop
  (dot-unstuffing, terminator handling).
* `internal/smtp/sender.go` — the header-rewriting part of `Sender.Send`.
* the worker package (`processMailbox`) — the per-mailbox orchestration loop.

Machine-level I/O (sockets, files) is modelled by explicit outcome oracles:
every fallible external call is given its result (success/failure) as data,
and the embedding reproduces exactly the control flow the Go code takes on
that result.
-/

set_option autoImplicit false

namespace Yatogm

/-! ## History store: `internal/state/tracker.go`

`StateData` models `map[string]*MailboxState` as an association list from
mailbox address to the list of UIDs whose `FetchedUIDs` entry is `true`.
-/

/-- The in-memory state of the tracker: mailbox address mapped to the set of
fetched UIDs (`StateData` / `MailboxState` in `tracker.go`). -/
abbrev StateData := List (String × List String)

/-- Go map membership test `ms.FetchedUIDs[uid]` (a missing key reads as
`false`). -/
def memUid (uid : String) : List String → Bool
  | [] => false
  | u :: t => if u = uid then true else memUid uid t

/-- Go map lookup `t.data.Mailboxes[mailbox]` (first matching key). -/
def lookupMb : StateData → String → Option (List String)
  | [], _ => none
  | (k, v) :: t, m => if k = m then some v else lookupMb t m

/-- `Tracker.IsFetched` from `tracker.go`: false when the mailbox has no
entry, otherwise membership of the uid in the mailbox's fetched set. -/
def IsFetched (sd : StateData) (mailbox uid : String) : Bool :=
  match lookupMb sd mailbox with
  | none => false
  | some uids => memUid uid uids

/-- Setting `ms.FetchedUIDs[uid] = true`: adds `uid` to the set if absent. -/
def insertUid (uids : List String) (uid : String) : List String :=
  if memUid uid uids then uids else uids ++ [uid]

/-- The in-memory part of `Tracker.MarkFetched`: get-or-create the mailbox
entry, then set the uid. -/
def markMem : StateData → String → String → StateData
  | [], mailbox, uid => [(mailbox, [uid])]
  | (k, v) :: t, mailbox, uid =>
    if k = mailbox then (k, insertUid v uid) :: t
    else (k, v) :: markMem t mailbox uid

/-- Get-or-create of the mailbox entry (the `if !ok` branch shared by
`MarkFetched` and `MarkBatchFetched`). -/
def ensureMb : StateData → String → StateData
  | [], mailbox => [(mailbox, [])]
  | (k, v) :: t, mailbox =>
    if k = mailbox then (k, v) :: t
    else (k, v) :: ensureMb t mailbox

/-- The in-memory part of `Tracker.MarkBatchFetched`: get-or-create the
mailbox entry, then set each uid in turn. -/
def markBatchMem (sd : StateData) (mailbox : String) (uids : List String) : StateData :=
  uids.foldl (fun acc u => markMem acc mailbox u) (ensureMb sd mailbox)

/-! ### The backing file and atomic persistence (`load` / `save`) -/

/-- The content observable under one file name. `corrupt raw` is any content
that fails to deserialize; `readErr` is a read failure other than absence. -/
inductive File where
  | absent
  | readErr
  | corrupt (raw : String)
  | valid (sd : StateData)
deriving DecidableEq

/-- The two file names `save` touches: the canonical state file and the
`.tmp` file next to it. -/
structure Disk where
  canonical : File
  tmp : Option StateData
deriving DecidableEq

/-- Which step of `Tracker.save` fails, if any. `failWrite` is a failure of
`os.WriteFile` on the temp file; `failRename` is a failure (or crash) after
the temp write and before `os.Rename` takes effect. -/
inductive SaveOutcome where
  | ok
  | failWrite
  | failRename
deriving DecidableEq

/-- The `os.WriteFile(tmpFile, data, 0600)` step: the whole serialized state
lands under the temp name; the canonical name is untouched. -/
def writeTmp (sd : StateData) (d : Disk) : Disk :=
  { d with tmp := some sd }

/-- The `os.Rename(tmpFile, t.filePath)` step: the temp content replaces the
canonical content atomically. -/
def renameTmp (d : Disk) : Disk :=
  match d.tmp with
  | some sd => { canonical := File.valid sd, tmp := none }
  | none => d

/-- `Tracker.save` from `tracker.go`: serialize the entire current state,
write it to the temp file, rename over the canonical file. Returns the new
disk content and whether the call returned nil. -/
def save (sd : StateData) (o : SaveOutcome) (d : Disk) : Disk × Bool :=
  match o with
  | SaveOutcome.failWrite => (d, false)
  | SaveOutcome.failRename => (writeTmp sd d, false)
  | SaveOutcome.ok => (renameTmp (writeTmp sd d), true)

/-- `NewTracker` + `Tracker.load`: absent file starts fresh, undeserializable
content starts fresh (the `json.Unmarshal` error is swallowed), a read error
other than absence fails, valid content becomes the in-memory state. -/
def NewTracker : File → Except String StateData
  | File.absent => Except.ok []
  | File.readErr => Except.error "loading state"
  | File.corrupt _ => Except.ok []
  | File.valid sd => Except.ok sd

/-- Result of a mutating tracker operation: the new in-memory state, the new
disk content, and whether the operation returned nil. -/
structure OpResult where
  tr : StateData
  disk : Disk
  ok : Bool
deriving DecidableEq

/-- `Tracker.MarkFetched`: mutate the in-memory state first, then persist via
`save`; the error (if any) comes solely from `save`. -/
def MarkFetched (tr : StateData) (d : Disk) (mailbox uid : String)
    (o : SaveOutcome) : OpResult :=
  let tr' := markMem tr mailbox uid
  let s := save tr' o d
  ⟨tr', s.1, s.2⟩

/-- `Tracker.MarkBatchFetched`: mutate the in-memory state for every uid,
then persist once via `save`. -/
def MarkBatchFetched (tr : StateData) (d : Disk) (mailbox : String)
    (uids : List String) (o : SaveOutcome) : OpResult :=
  let tr' := markBatchMem tr mailbox uids
  let s := save tr' o d
  ⟨tr', s.1, s.2⟩

/-! ## POP3 client: `internal/pop3/client.go`, `Retrieve`

A line is modelled as a `List Char` exactly as `bufio.Reader.ReadString('\n')`
returns it (terminator included when present). The input stream is the list
of complete lines the reader can deliver; when the list is exhausted before
the terminator line, `ReadString` fails and `Retrieve` returns an error,
modelled as `none`.
-/

/-- Membership in the cutset of `strings.TrimRight(line, "\r\n")`. -/
def crlfChar (c : Char) : Bool := c = '\r' || c = '\n'

/-- `strings.TrimRight(line, "\r\n")`: remove the maximal trailing run of
carriage-return and line-feed characters. -/
def trimRightCRLF : List Char → List Char
  | [] => []
  | c :: t =>
    match trimRightCRLF t with
    | [] => if crlfChar c then [] else [c]
    | d :: r => c :: d :: r

/-- The dot-unstuffing step of `Retrieve`: when the trimmed line starts with
a doubled terminator character, the original line loses its first byte. -/
def unstuff (line : List Char) : List Char :=
  if (trimRightCRLF line).take 2 = ['.', '.'] then line.drop 1 else line

/-- The read loop of `Client.Retrieve`: stop on a line trimming to the single
terminator token, unstuff and accumulate every other line, fail if the
stream ends first. -/
def retrieveLoop : List (List Char) → Option (List Char)
  | [] => none
  | line :: rest =>
    if trimRightCRLF line = ['.'] then some []
    else
      match retrieveLoop rest with
      | none => none
      | some body => some (unstuff line ++ body)

/-! ## SMTP sender: `internal/smtp/sender.go`, the header rewrite in `Send`

A successfully parsed message's header block (`mail.Header`) is a Go map
from canonical MIME key to the list of values in order of appearance. The
association list models that map; its list order stands for Go's map
iteration order, which the language leaves unspecified and randomizes.

`sendHeaders` produces the outgoing header block as an ordered list of
(name, value) pairs; the body is appended unchanged after it and plays no
role in the header claims.
-/

/-- The parsed header block of `mail.ReadMessage` (canonical keys). -/
abbrev Header := List (String × List String)

/-- `mail.Header.Get`: first value under the key, or the empty string. -/
def getH : Header → String → String
  | [], _ => ""
  | (k, vs) :: t, key =>
    if k = key then
      match vs with
      | [] => ""
      | v :: _ => v
    else getH t key

/-- The `handled` set from `Send` (canonical key spellings as in the Go
literal, note `Mime-Version`). -/
def handled (k : String) : Bool :=
  k = "From" || k = "To" || k = "Subject" || k = "Date" ||
  k = "Message-Id" || k = "Cc" || k = "Reply-To" ||
  k = "Content-Type" || k = "Content-Transfer-Encoding" || k = "Mime-Version"

/-- The `for key, values := range msg.Header` copy loop: every value of
every key outside the handled set, same-key values in slice order, keys in
the (unspecified) iteration order given by the list. -/
def extraHeaders : Header → List (String × String)
  | [] => []
  | (k, vs) :: t =>
    if handled k then extraHeaders t
    else vs.map (fun v => (k, v)) ++ extraHeaders t

/-- Lines 63–105 of `sender.go`: the fixed-order rewritten headers. Note the
`Get` keys are the canonical spellings (`Mime-Version`), while the emitted
name keeps the source's literal spelling (`MIME-Version`). -/
def fixedHeaders (dest src : String) (hdr : Header) : List (String × String) :=
  let origFrom := getH hdr "From"
  let origDate := getH hdr "Date"
  let origSubject := getH hdr "Subject"
  let origMessageID := getH hdr "Message-Id"
  let origTo := getH hdr "To"
  let origCc := getH hdr "Cc"
  let origReplyTo := getH hdr "Reply-To"
  let contentType := getH hdr "Content-Type"
  let cte := getH hdr "Content-Transfer-Encoding"
  let mimeVersion := getH hdr "Mime-Version"
  [("From", dest), ("To", dest)] ++
  (if origSubject ≠ "" then [("Subject", origSubject)] else []) ++
  (if origDate ≠ "" then [("Date", origDate)] else []) ++
  (if origFrom ≠ "" then
    [("X-Original-From", origFrom), ("Resent-From", origFrom)] else []) ++
  (if origTo ≠ "" then [("X-Original-To", origTo)] else []) ++
  (if origCc ≠ "" then [("X-Original-Cc", origCc)] else []) ++
  (if origReplyTo ≠ "" then [("Reply-To", origReplyTo)]
   else if origFrom ≠ "" then [("Reply-To", origFrom)] else []) ++
  (if origMessageID ≠ "" then
    [("X-Original-Message-Id", origMessageID)] else []) ++
  [("X-YaToGm-Source", src), ("X-Mailer", "YaToGm/1.0")] ++
  (if mimeVersion ≠ "" then [("MIME-Version", mimeVersion)] else []) ++
  (if contentType ≠ "" then [("Content-Type", contentType)] else []) ++
  (if cte ≠ "" then [("Content-Transfer-Encoding", cte)] else [])

/-- The full outgoing header block built by `Send` on a parsed message. -/
def sendHeaders (dest src : String) (hdr : Header) : List (String × String) :=
  fixedHeaders dest src hdr ++ extraHeaders hdr

/-- Values carried by a given header name in an outgoing block, in emission
order. -/
def valuesOf (out : List (String × String)) (key : String) : List String :=
  (out.filter (fun p => p.1 = key)).map Prod.snd

/-! ## Worker orchestration: `processMailbox` in the worker package

The per-mailbox loop is embedded with an outcome oracle for every external
call (dial, login, UIDL, and per-message retrieve/send/save/delete results,
the last keyed by message number). The run result carries the tracker state,
the disk content, the `fetched`/`errors` counters of `processMailbox`, and a
trace of the protocol actions in the order the Go code performs them.
-/

/-- One observable action of a mailbox run; the Bool records whether the
call returned success. `quit` is the graceful termination (`Client.Quit`,
which sends the QUIT command that commits pending deletions). -/
inductive Ev where
  | dialErr
  | login
  | loginErr
  | uidl
  | uidlErr
  | skip (n : Nat)
  | retrieve (n : Nat) (ok : Bool)
  | send (n : Nat) (ok : Bool)
  | mark (n : Nat) (ok : Bool)
  | delete (n : Nat) (ok : Bool)
  | quit
deriving DecidableEq, Repr

/-- Outcomes of the external calls made for one message. -/
structure MsgOutcome where
  retrieveOk : Bool
  sendOk : Bool
  saveOutcome : SaveOutcome
  deleteOk : Bool

/-- Aggregate result of (part of) a mailbox run. -/
structure RunRes where
  tr : StateData
  disk : Disk
  fetched : Nat
  errors : Nat
  trace : List Ev
deriving DecidableEq

/-- The body of the per-message loop in `processMailbox` (lines 112–154 of
the worker source): skip when already fetched; otherwise retrieve, forward,
record, delete in that order, each failure isolated to the message with
`errors++` and `continue`. -/
def processMsg (mb : String) (tr : StateData) (disk : Disk)
    (n : Nat) (uid : String) (o : MsgOutcome) : RunRes :=
  if IsFetched tr mb uid then ⟨tr, disk, 0, 0, [Ev.skip n]⟩
  else if !o.retrieveOk then ⟨tr, disk, 0, 1, [Ev.retrieve n false]⟩
  else if !o.sendOk then
    ⟨tr, disk, 0, 1, [Ev.retrieve n true, Ev.send n false]⟩
  else if !(MarkFetched tr disk mb uid o.saveOutcome).ok then
    ⟨(MarkFetched tr disk mb uid o.saveOutcome).tr,
      (MarkFetched tr disk mb uid o.saveOutcome).disk, 0, 1,
      [Ev.retrieve n true, Ev.send n true, Ev.mark n false]⟩
  else if !o.deleteOk then
    ⟨(MarkFetched tr disk mb uid o.saveOutcome).tr,
      (MarkFetched tr disk mb uid o.saveOutcome).disk, 0, 1,
      [Ev.retrieve n true, Ev.send n true, Ev.mark n true,
        Ev.delete n false]⟩
  else
    ⟨(MarkFetched tr disk mb uid o.saveOutcome).tr,
      (MarkFetched tr disk mb uid o.saveOutcome).disk, 1, 0,
      [Ev.retrieve n true, Ev.send n true, Ev.mark n true,
        Ev.delete n true]⟩

/-- The message loop folded over the (sorted) message list, threading the
tracker and disk state and accumulating counters and trace. -/
def processMsgs (mb : String) (tr : StateData) (disk : Disk) :
    List (Nat × String) → (Nat → MsgOutcome) → RunRes
  | [], _ => ⟨tr, disk, 0, 0, []⟩
  | (n, uid) :: rest, o =>
    let r := processMsg mb tr disk n uid (o n)
    let r' := processMsgs mb r.tr r.disk rest o
    ⟨r'.tr, r'.disk, r.fetched + r'.fetched, r.errors + r'.errors,
      r.trace ++ r'.trace⟩

/-- Insertion step of sorting the message numbers ascending
(`sort.Ints(msgNums)`). -/
def insertSorted (n : Nat) : List Nat → List Nat
  | [] => [n]
  | m :: t => if n ≤ m then n :: m :: t else m :: insertSorted n t

/-- Ascending sort of the listed message numbers. -/
def sortNums (l : List Nat) : List Nat := l.foldr insertSorted []

/-- Go map read `uidMap[msgNum]` ("" when absent; UIDL keys are unique). -/
def lookupNum : List (Nat × String) → Nat → String
  | [], _ => ""
  | (k, v) :: t, n => if k = n then v else lookupNum t n

/-- The deterministic processing order of `processMailbox`: message numbers
sorted ascending, each paired with its UID from the listing. -/
def sortMsgs (m : List (Nat × String)) : List (Nat × String) :=
  (sortNums (m.map Prod.fst)).map (fun n => (n, lookupNum m n))

/-- Outcomes of the mailbox-level external calls, plus the server listing. -/
structure MbOracle where
  dialOk : Bool
  loginOk : Bool
  uidlOk : Bool
  uidMap : List (Nat × String)
  msg : Nat → MsgOutcome

/-- `processMailbox` from the worker package. A failed dial returns before
the `defer client.Quit()` is registered, so only that path omits the
graceful termination; every later path — including the login-failure and
UIDL-failure aborts — runs the deferred `Quit`. -/
def processMailbox (mb : String) (tr : StateData) (disk : Disk)
    (o : MbOracle) : RunRes :=
  if !o.dialOk then ⟨tr, disk, 0, 1, [Ev.dialErr]⟩
  else if !o.loginOk then ⟨tr, disk, 0, 1, [Ev.loginErr, Ev.quit]⟩
  else if !o.uidlOk then ⟨tr, disk, 0, 1, [Ev.login, Ev.uidlErr, Ev.quit]⟩
  else
    let r := processMsgs mb tr disk (sortMsgs o.uidMap) o.msg
    ⟨r.tr, r.disk, r.fetched, r.errors,
      Ev.login :: Ev.uidl :: (r.trace ++ [Ev.quit])⟩

/-! ### Ordering of events within a run trace -/

/-- A successful forward (`Send` returned nil) for message `n`. -/
def isSendOk (n : Nat) : Ev → Bool
  | Ev.send m true => m == n
  | _ => false

/-- Any invocation of `MarkFetched` for message `n`. -/
def isMarkEv (n : Nat) : Ev → Bool
  | Ev.mark m _ => m == n
  | _ => false

/-- A successful `MarkFetched` (returned nil) for message `n`. -/
def isMarkOk (n : Nat) : Ev → Bool
  | Ev.mark m true => m == n
  | _ => false

/-- Any issuance of the deletion-flag command for message `n`. -/
def isDeleteEv (n : Nat) : Ev → Bool
  | Ev.delete m _ => m == n
  | _ => false

/-- Every event satisfying `q` in the trace is strictly preceded by some
event satisfying `p`. -/
def Precedes (p q : Ev → Bool) (t : List Ev) : Prop :=
  ∀ (i : Nat) (e : Ev), t[i]? = some e → q e = true →
    ∃ (j : Nat) (e' : Ev), j < i ∧ t[j]? = some e' ∧ p e' = true

/-! ### Claims about the orchestration -/

/-- Outcome oracle for the C1 witness: message 1 fails at the forward step,
message 2 succeeds at every step. -/
def claim1OracleW : Nat → MsgOutcome :=
  fun n => if n = 1 then ⟨true, false, SaveOutcome.ok, true⟩
    else ⟨true, true, SaveOutcome.ok, true⟩

/-- Mailbox oracle where every call succeeds and the listing has one
message. -/
def allOkMb : MbOracle :=
  ⟨true, true, true, [(1, "u1")], fun _ => ⟨true, true, SaveOutcome.ok, true⟩⟩

/-- Mailbox oracle whose login (PASS) is rejected. -/
def loginFailMb : MbOracle :=
  ⟨true, false, true, [], fun _ => ⟨true, true, SaveOutcome.ok, true⟩⟩

/-- Mailbox oracle whose UIDL listing fails. -/
def uidlFailMb : MbOracle :=
  ⟨true, true, false, [], fun _ => ⟨true, true, SaveOutcome.ok, true⟩⟩

/-! ## Theorems -/

/-! ### Basic lemmas about the tracker state -/

theorem memUid_append_self (l : List String) (u : String) :
    memUid u (l ++ [u]) = true := by
  induction l with
  | nil => simp [memUid]
  | cons x t ih =>
    unfold memUid
    by_cases hx : x = u
    · simp [hx]
    · simpa [hx] using ih

theorem memUid_append_ne (l : List String) (u u' : String) (h : u' ≠ u) :
    memUid u' (l ++ [u]) = memUid u' l := by
  induction l with
  | nil => simp [memUid, Ne.symm h]
  | cons x t ih =>
    unfold memUid
    by_cases hx : x = u'
    · simp [hx]
    · simpa [hx] using ih

theorem memUid_insertUid_self (l : List String) (u : String) :
    memUid u (insertUid l u) = true := by
  unfold insertUid
  by_cases h : memUid u l = true
  · simp [h]
  · simp only [Bool.not_eq_true] at h
    simp only [h, if_false]
    exact memUid_append_self l u

theorem memUid_insertUid_ne (l : List String) (u u' : String) (h : u' ≠ u) :
    memUid u' (insertUid l u) = memUid u' l := by
  unfold insertUid
  by_cases hm : memUid u l = true
  · simp [hm]
  · simp only [Bool.not_eq_true] at hm
    simp only [hm, if_false]
    exact memUid_append_ne l u u' h

theorem lookupMb_markMem_self (sd : StateData) (mailbox uid : String) :
    lookupMb (markMem sd mailbox uid) mailbox =
      some (insertUid ((lookupMb sd mailbox).getD []) uid) := by
  induction sd with
  | nil => simp [markMem, lookupMb, insertUid, memUid]
  | cons kv t ih =>
    obtain ⟨k, v⟩ := kv
    by_cases hk : k = mailbox
    · simp [markMem, lookupMb, hk]
    · simp [markMem, lookupMb, hk, ih]

theorem lookupMb_markMem_ne (sd : StateData) (mailbox uid mb' : String)
    (h : mb' ≠ mailbox) :
    lookupMb (markMem sd mailbox uid) mb' = lookupMb sd mb' := by
  induction sd with
  | nil => simp [markMem, lookupMb, Ne.symm h]
  | cons kv t ih =>
    obtain ⟨k, v⟩ := kv
    by_cases hk : k = mailbox
    · subst hk
      simp [markMem, lookupMb, Ne.symm h]
    · by_cases hk' : k = mb'
      · subst hk'
        simp [markMem, lookupMb, hk, h]
      · simp [markMem, lookupMb, hk, hk', ih]

theorem isFetched_markMem_self (sd : StateData) (mailbox uid : String) :
    IsFetched (markMem sd mailbox uid) mailbox uid = true := by
  unfold IsFetched
  rw [lookupMb_markMem_self]
  exact memUid_insertUid_self _ _

theorem isFetched_markMem_frame (sd : StateData) (mailbox uid mb' uid' : String)
    (h : ¬(mb' = mailbox ∧ uid' = uid)) :
    IsFetched (markMem sd mailbox uid) mb' uid' = IsFetched sd mb' uid' := by
  by_cases hmb : mb' = mailbox
  · subst hmb
    have huid : uid' ≠ uid := fun hh => h ⟨rfl, hh⟩
    unfold IsFetched
    rw [lookupMb_markMem_self]
    cases hl : lookupMb sd mb' with
    | none =>
      simp only [hl, Option.getD_none]
      rw [memUid_insertUid_ne _ _ _ huid]
      simp [memUid]
    | some v =>
      simp only [hl, Option.getD_some]
      rw [memUid_insertUid_ne _ _ _ huid]
  · unfold IsFetched
    rw [lookupMb_markMem_ne _ _ _ _ hmb]

theorem isFetched_markMem_mono (sd : StateData) (mailbox uid mb' uid' : String)
    (h : IsFetched sd mb' uid' = true) :
    IsFetched (markMem sd mailbox uid) mb' uid' = true := by
  by_cases hcase : mb' = mailbox ∧ uid' = uid
  · obtain ⟨h1, h2⟩ := hcase
    subst h1; subst h2
    exact isFetched_markMem_self _ _ _
  · rw [isFetched_markMem_frame _ _ _ _ _ hcase]
    exact h

/-! ### Claims about the history store -/

/-- C5: loading the history store from an absent backing file, or from a
backing file whose content fails to deserialize, returns a usable empty store
and not an error; on the empty store `IsFetched` is false for every
(mailbox, uid) pair. -/
theorem claim5_load_recovers_empty (raw mailbox uid : String) :
    NewTracker (File.corrupt raw) = Except.ok ([] : StateData) ∧
    NewTracker File.absent = Except.ok ([] : StateData) ∧
    IsFetched ([] : StateData) mailbox uid = false := by
  refine ⟨rfl, rfl, rfl⟩

/-- C4: `MarkFetched` and `MarkBatchFetched` serialize the entire current
state and atomically rename it over the canonical file (conjuncts 1 and 2);
a failure between the temporary-file write and the rename leaves the
canonical file with its prior content (conjuncts 3 and 4), from which a
reload (`NewTracker`) recovers the pre-failure state (conjunct 5). -/
theorem claim4_atomic_persistence (tr : StateData) (d : Disk)
    (mailbox uid : String) (uids : List String) :
    (MarkFetched tr d mailbox uid SaveOutcome.ok).disk.canonical
        = File.valid (markMem tr mailbox uid) ∧
    (MarkBatchFetched tr d mailbox uids SaveOutcome.ok).disk.canonical
        = File.valid (markBatchMem tr mailbox uids) ∧
    (MarkFetched tr d mailbox uid SaveOutcome.failRename).disk.canonical
        = d.canonical ∧
    (MarkBatchFetched tr d mailbox uids SaveOutcome.failRename).disk.canonical
        = d.canonical ∧
    (∀ sd₀ : StateData, d.canonical = File.valid sd₀ →
      NewTracker
          (MarkFetched tr d mailbox uid SaveOutcome.failRename).disk.canonical
        = Except.ok sd₀) := by
  refine ⟨rfl, rfl, rfl, rfl, ?_⟩
  intro sd₀ h
  simp [MarkFetched, save, writeTmp, h, NewTracker]

/-- C4 witness: the crash-between-write-and-rename case at a concrete state,
with the reload recovering the prior canonical content. -/
theorem claim4_atomic_persistence_witness :
    (MarkFetched [("a@y.com", ["u1"])]
        ⟨File.valid [("a@y.com", ["u1"])], none⟩ "a@y.com" "u2"
        SaveOutcome.failRename).disk.canonical
      = File.valid [("a@y.com", ["u1"])] ∧
    NewTracker
        (MarkFetched [("a@y.com", ["u1"])]
          ⟨File.valid [("a@y.com", ["u1"])], none⟩ "a@y.com" "u2"
          SaveOutcome.failRename).disk.canonical
      = Except.ok [("a@y.com", ["u1"])] :=
  ⟨(claim4_atomic_persistence [("a@y.com", ["u1"])]
      ⟨File.valid [("a@y.com", ["u1"])], none⟩ "a@y.com" "u2" []).2.2.1,
   (claim4_atomic_persistence [("a@y.com", ["u1"])]
      ⟨File.valid [("a@y.com", ["u1"])], none⟩ "a@y.com" "u2" []).2.2.2.2
     [("a@y.com", ["u1"])] rfl⟩

/-- C9: when `MarkFetched` fails because persistence failed, the in-memory
store has nevertheless already been mutated: the call returns an error, yet
`IsFetched` on the resulting in-memory state returns true for the pair. -/
theorem claim9_markFetched_mutates_on_error (tr : StateData) (d : Disk)
    (mailbox uid : String) (o : SaveOutcome) (h : o ≠ SaveOutcome.ok) :
    (MarkFetched tr d mailbox uid o).ok = false ∧
    IsFetched (MarkFetched tr d mailbox uid o).tr mailbox uid = true := by
  cases o with
  | ok => exact absurd rfl h
  | failWrite =>
    exact ⟨rfl, isFetched_markMem_self tr mailbox uid⟩
  | failRename =>
    exact ⟨rfl, isFetched_markMem_self tr mailbox uid⟩

/-- C9 witness: a failed rename at a concrete state leaves the uid visible
in memory while the call reports failure. -/
theorem claim9_markFetched_mutates_on_error_witness :
    (MarkFetched [] ⟨File.absent, none⟩ "a@y.com" "u1"
        SaveOutcome.failRename).ok = false ∧
    IsFetched (MarkFetched [] ⟨File.absent, none⟩ "a@y.com" "u1"
        SaveOutcome.failRename).tr "a@y.com" "u1" = true :=
  claim9_markFetched_mutates_on_error [] ⟨File.absent, none⟩ "a@y.com" "u1"
    SaveOutcome.failRename (by decide)

/-- C10: after a successful `MarkFetched mailbox uid`, `IsFetched mailbox uid`
returns true, and every other (mailbox, uid) pair reads exactly as before the
call. -/
theorem claim10_markFetched_frame (tr : StateData) (d : Disk)
    (mailbox uid : String) :
    (MarkFetched tr d mailbox uid SaveOutcome.ok).ok = true ∧
    IsFetched (MarkFetched tr d mailbox uid SaveOutcome.ok).tr mailbox uid
        = true ∧
    ∀ mb' uid', ¬(mb' = mailbox ∧ uid' = uid) →
      IsFetched (MarkFetched tr d mailbox uid SaveOutcome.ok).tr mb' uid'
        = IsFetched tr mb' uid' := by
  refine ⟨rfl, isFetched_markMem_self tr mailbox uid, ?_⟩
  intro mb' uid' h
  exact isFetched_markMem_frame tr mailbox uid mb' uid' h

/-- C10 witness: marking ("a@y.com", "u2") in a concrete store leaves the
("a@y.com", "u1") and ("b@y.com", "u2") reads unchanged. -/
theorem claim10_markFetched_frame_witness :
    IsFetched (MarkFetched [("a@y.com", ["u1"])] ⟨File.absent, none⟩
        "a@y.com" "u2" SaveOutcome.ok).tr "a@y.com" "u2" = true ∧
    IsFetched (MarkFetched [("a@y.com", ["u1"])] ⟨File.absent, none⟩
        "a@y.com" "u2" SaveOutcome.ok).tr "a@y.com" "u1"
      = IsFetched [("a@y.com", ["u1"])] "a@y.com" "u1" ∧
    IsFetched (MarkFetched [("a@y.com", ["u1"])] ⟨File.absent, none⟩
        "a@y.com" "u2" SaveOutcome.ok).tr "b@y.com" "u2"
      = IsFetched [("a@y.com", ["u1"])] "b@y.com" "u2" :=
  ⟨(claim10_markFetched_frame [("a@y.com", ["u1"])] ⟨File.absent, none⟩
      "a@y.com" "u2").2.1,
   (claim10_markFetched_frame [("a@y.com", ["u1"])] ⟨File.absent, none⟩
      "a@y.com" "u2").2.2 "a@y.com" "u1" (by decide),
   (claim10_markFetched_frame [("a@y.com", ["u1"])] ⟨File.absent, none⟩
      "a@y.com" "u2").2.2 "b@y.com" "u2" (by decide)⟩

theorem trimRightCRLF_dot_cons (s : List Char) :
    ∃ t, trimRightCRLF ('.' :: s) = '.' :: t := by
  show ∃ t, (match trimRightCRLF s with
    | [] => if crlfChar '.' then [] else ['.']
    | d :: r => '.' :: d :: r) = '.' :: t
  cases h : trimRightCRLF s with
  | nil => exact ⟨[], by simp [crlfChar]⟩
  | cons d r => exact ⟨d :: r, rfl⟩

theorem unstuff_dotdot (s : List Char) :
    unstuff ('.' :: '.' :: s) = '.' :: s := by
  obtain ⟨t, ht⟩ := trimRightCRLF_dot_cons s
  have h2 : trimRightCRLF ('.' :: '.' :: s) = '.' :: '.' :: t := by
    show (match trimRightCRLF ('.' :: s) with
      | [] => if crlfChar '.' then [] else ['.']
      | d :: r => '.' :: d :: r) = '.' :: '.' :: t
    rw [ht]
  unfold unstuff
  rw [h2]
  simp

/-- C3: `Retrieve` reads lines until a line trimming to the single terminator
token; the terminator line is never part of the body and nothing after it is
read (conjunct 1, which also shows each body line is included after one
unstuffing step); a line beginning with a doubled terminator character has
exactly one leading terminator character removed (conjunct 2); and the loop
returns an error when the stream ends before the terminator line
(conjunct 3). -/
theorem claim3_retrieve_unstuffing :
    (∀ pre term post, (∀ l ∈ pre, trimRightCRLF l ≠ ['.']) →
        trimRightCRLF term = ['.'] →
        retrieveLoop (pre ++ term :: post) = some (pre.map unstuff).flatten) ∧
    (∀ s : List Char, unstuff ('.' :: '.' :: s) = '.' :: s) ∧
    (∀ lines, (∀ l ∈ lines, trimRightCRLF l ≠ ['.']) →
        retrieveLoop lines = none) := by
  refine ⟨?_, unstuff_dotdot, ?_⟩
  · intro pre term post hpre hterm
    induction pre with
    | nil =>
      simp [retrieveLoop, hterm]
    | cons l t ih =>
      rw [List.forall_mem_cons] at hpre
      have := ih hpre.2
      simp only [List.cons_append, retrieveLoop, hpre.1, if_false,
        List.append_eq, this, List.map_cons, List.flatten_cons]
  · intro lines hl
    induction lines with
    | nil => rfl
    | cons l t ih =>
      rw [List.forall_mem_cons] at hl
      simp only [retrieveLoop, hl.1, if_false, ih hl.2]

/-- C3 witness: a concrete session body with one dot-stuffed line, one plain
line, the terminator, and trailing noise after the terminator. -/
theorem claim3_retrieve_unstuffing_witness :
    retrieveLoop ([['.', '.', 'h', 'i', '\r', '\n'], ['a', '\r', '\n']] ++
        ['.', '\r', '\n'] :: [['x', '\n']])
      = some (([['.', '.', 'h', 'i', '\r', '\n'], ['a', '\r', '\n']].map
          unstuff).flatten) ∧
    unstuff ('.' :: '.' :: ['h', 'i']) = '.' :: ['h', 'i'] ∧
    retrieveLoop [['a', '\n']] = none :=
  ⟨claim3_retrieve_unstuffing.1 _ _ _ (by decide) (by decide),
   claim3_retrieve_unstuffing.2.1 ['h', 'i'],
   claim3_retrieve_unstuffing.2.2 [['a', '\n']] (by decide)⟩

theorem filter_ite {α : Type} (p : α → Bool) (c : Prop) [Decidable c]
    (a b : List α) :
    List.filter p (if c then a else b)
      = if c then List.filter p a else List.filter p b := by
  split <;> rfl

theorem extraHeaders_block (hdr : Header) (k : String) (vs : List String)
    (hmem : (k, vs) ∈ hdr) (hh : handled k = false) :
    ∃ l₁ l₂, extraHeaders hdr = l₁ ++ vs.map (fun v => (k, v)) ++ l₂ := by
  induction hdr with
  | nil => cases hmem
  | cons kv t ih =>
    obtain ⟨k', vs'⟩ := kv
    rcases List.mem_cons.mp hmem with heq | hmem'
    · obtain ⟨hk, hv⟩ := Prod.mk.injEq .. ▸ heq
      subst hk; subst hv
      exact ⟨[], extraHeaders t, by simp [extraHeaders, hh]⟩
    · obtain ⟨l₁, l₂, he⟩ := ih hmem'
      by_cases hk' : handled k' = true
      · exact ⟨l₁, l₂, by simp [extraHeaders, hk', he]⟩
      · simp only [Bool.not_eq_true] at hk'
        refine ⟨vs'.map (fun v => (k', v)) ++ l₁, l₂, ?_⟩
        simp [extraHeaders, hk', he]

theorem extraHeaders_key_not_handled (hdr : Header) (k v : String)
    (hmem : (k, v) ∈ extraHeaders hdr) : handled k = false := by
  induction hdr with
  | nil => cases hmem
  | cons kv t ih =>
    obtain ⟨k', vs'⟩ := kv
    by_cases hk' : handled k' = true
    · rw [extraHeaders, if_pos hk'] at hmem
      exact ih hmem
    · simp only [Bool.not_eq_true] at hk'
      rw [extraHeaders, if_neg (by simp [hk'])] at hmem
      rcases List.mem_append.mp hmem with hin | hin
      · obtain ⟨v', _, heq⟩ := List.mem_map.mp hin
        obtain ⟨hk, _⟩ := Prod.mk.injEq .. ▸ heq
        rw [← hk]
        exact hk'
      · exact ih hin

/-- C7 counterexample: the remaining-headers copy loop ranges over a Go map,
whose iteration order is unspecified; two iteration orders of the same header
map (the two lists are permutations of each other) yield different outgoing
byte sequences, so the relative order among remaining headers is not
preserved deterministically as the claim states. -/
theorem claim7_counterexample :
    List.Perm [("X-Aaa", ["1"]), ("X-Bbb", ["2"])]
      [("X-Bbb", ["2"]), ("X-Aaa", ["1"])] ∧
    sendHeaders "dest@gmail.com" "a@yahoo.com" [("X-Aaa", ["1"]), ("X-Bbb", ["2"])]
      ≠ sendHeaders "dest@gmail.com" "a@yahoo.com"
          [("X-Bbb", ["2"]), ("X-Aaa", ["1"])] := by
  constructor
  · decide
  · decide

/-- C7 amended: for every iteration order of the parsed header map, every
original header not in the handled set is copied into the output with its
name and value preserved act, and the values of one name keep their relative
order (they appear as one consecutive block in slice order); the relative
order among distinct remaining header names follows the map iteration order,
which is unspecified, so the output is not byte-deterministic. -/
theorem claim7_header_copy_amended (dest src : String) (hdr : Header)
    (k : String) (vs : List String)
    (hmem : (k, vs) ∈ hdr) (hh : handled k = false) :
    ∃ l₁ l₂, sendHeaders dest src hdr
      = l₁ ++ vs.map (fun v => (k, v)) ++ l₂ := by
  obtain ⟨l₁, l₂, he⟩ := extraHeaders_block hdr k vs hmem hh
  refine ⟨fixedHeaders dest src hdr ++ l₁, l₂, ?_⟩
  rw [sendHeaders, he]
  simp [List.append_assoc]

/-- C7 witness: a concrete unhandled header is copied as a consecutive block
with name and value intact. -/
theorem claim7_header_copy_amended_witness :
    ∃ l₁ l₂, sendHeaders "dest@gmail.com" "a@yahoo.com"
        [("From", ["j@x.com"]), ("X-Spam-Score", ["3", "4"])]
      = l₁ ++ [("X-Spam-Score", "3"), ("X-Spam-Score", "4")] ++ l₂ :=
  claim7_header_copy_amended "dest@gmail.com" "a@yahoo.com"
    [("From", ["j@x.com"]), ("X-Spam-Score", ["3", "4"])]
    "X-Spam-Score" ["3", "4"] (by decide) (by decide)

/-- C8: with an original From and no original Reply-To, the output carries
exactly one Reply-To header whose value is the original From, plus the two
preservation headers carrying the original sender; with an original Reply-To,
the output carries exactly one Reply-To header whose value is the original
Reply-To (the synthesized one is not emitted). -/
theorem claim8_reply_to (dest src : String) (hdr : Header) :
    (getH hdr "From" ≠ "" → getH hdr "Reply-To" = "" →
      valuesOf (sendHeaders dest src hdr) "Reply-To" = [getH hdr "From"] ∧
      ("X-Original-From", getH hdr "From") ∈ sendHeaders dest src hdr ∧
      ("Resent-From", getH hdr "From") ∈ sendHeaders dest src hdr) ∧
    (getH hdr "Reply-To" ≠ "" →
      valuesOf (sendHeaders dest src hdr) "Reply-To"
        = [getH hdr "Reply-To"]) := by
  have hextra : List.filter (fun p => p.1 = "Reply-To") (extraHeaders hdr)
      = [] := by
    rw [List.filter_eq_nil_iff]
    intro p hp
    obtain ⟨k, v⟩ := p
    have := extraHeaders_key_not_handled hdr k v hp
    simp only [decide_eq_true_eq]
    intro hk
    rw [hk] at this
    simp [handled] at this
  constructor
  · intro hfrom hrt
    refine ⟨?_, ?_, ?_⟩
    · rw [valuesOf, sendHeaders, List.filter_append, hextra, List.append_nil,
        fixedHeaders]
      simp only [hrt, hfrom, ne_eq, not_true_eq_false, not_false_eq_true,
        if_true, if_false]
      simp [List.filter_append, filter_ite]
    · rw [sendHeaders, fixedHeaders]
      simp [hfrom]
    · rw [sendHeaders, fixedHeaders]
      simp [hfrom]
  · intro hrt
    rw [valuesOf, sendHeaders, List.filter_append, hextra, List.append_nil,
      fixedHeaders]
    simp only [hrt, ne_eq, not_false_eq_true, if_true]
    simp [List.filter_append, filter_ite]

/-- C8 witness: the spec scenario, a message whose only original header is
`From: Jane <jane@x.com>` (no Reply-To), and a second message that does carry
an original Reply-To. -/
theorem claim8_reply_to_witness :
    (valuesOf (sendHeaders "dest@gmail.com" "a@yahoo.com"
        [("From", ["Jane <jane@x.com>"])]) "Reply-To" = ["Jane <jane@x.com>"] ∧
      ("X-Original-From", "Jane <jane@x.com>") ∈
        sendHeaders "dest@gmail.com" "a@yahoo.com" [("From", ["Jane <jane@x.com>"])] ∧
      ("Resent-From", "Jane <jane@x.com>") ∈
        sendHeaders "dest@gmail.com" "a@yahoo.com" [("From", ["Jane <jane@x.com>"])]) ∧
    valuesOf (sendHeaders "dest@gmail.com" "a@yahoo.com"
        [("Reply-To", ["bob@x.com"]), ("From", ["Jane <jane@x.com>"])]) "Reply-To"
      = ["bob@x.com"] :=
  ⟨(claim8_reply_to "dest@gmail.com" "a@yahoo.com"
      [("From", ["Jane <jane@x.com>"])]).1 (by decide) (by decide),
   (claim8_reply_to "dest@gmail.com" "a@yahoo.com"
      [("Reply-To", ["bob@x.com"]), ("From", ["Jane <jane@x.com>"])]).2
     (by decide)⟩

theorem precedes_of_no_q (p q : Ev → Bool) (t : List Ev)
    (h : ∀ e ∈ t, q e = false) : Precedes p q t := by
  intro i e hi hq
  obtain ⟨hlt, he⟩ := List.getElem?_eq_some.mp hi
  have hmem : e ∈ t := he ▸ List.getElem_mem hlt
  rw [h e hmem] at hq
  cases hq

theorem precedes_head_block (p q : Ev → Bool) (a b : List Ev)
    (hq : ∀ e ∈ a, q e = false) (hp : ∃ e ∈ a, p e = true) :
    Precedes p q (a ++ b) := by
  intro i e hi hqe
  obtain ⟨e₀, he₀, hpe₀⟩ := hp
  obtain ⟨j, hj, hje⟩ := List.mem_iff_getElem.mp he₀
  have hilen : a.length ≤ i := by
    by_contra hlt
    push_neg at hlt
    rw [List.getElem?_append_left hlt] at hi
    obtain ⟨hlt2, he⟩ := List.getElem?_eq_some.mp hi
    have hmem : e ∈ a := he ▸ List.getElem_mem hlt2
    rw [hq e hmem] at hqe
    cases hqe
  refine ⟨j, e₀, lt_of_lt_of_le hj hilen, ?_, hpe₀⟩
  rw [List.getElem?_append_left hj, List.getElem?_eq_getElem hj]
  exact congrArg some hje

theorem precedes_append (p q : Ev → Bool) (a b : List Ev)
    (ha : Precedes p q a) (hb : Precedes p q b) : Precedes p q (a ++ b) := by
  intro i e hi hq
  by_cases hlt : i < a.length
  · rw [List.getElem?_append_left hlt] at hi
    obtain ⟨j, e', hj, hje, hpe⟩ := ha i e hi hq
    have hjlen : j < a.length := lt_trans hj hlt
    exact ⟨j, e', hj, by rw [List.getElem?_append_left hjlen]; exact hje, hpe⟩
  · push_neg at hlt
    rw [List.getElem?_append_right hlt] at hi
    obtain ⟨j, e', hj, hje, hpe⟩ := hb (i - a.length) e hi hq
    refine ⟨a.length + j, e', by omega, ?_, hpe⟩
    rw [List.getElem?_append_right (by omega)]
    have hdiff : a.length + j - a.length = j := by omega
    rw [hdiff]
    exact hje

theorem precedes_processMsg_send_mark (mb : String) (tr : StateData)
    (disk : Disk) (n : Nat) (uid : String) (o : MsgOutcome) (m : Nat) :
    Precedes (isSendOk m) (isMarkEv m) (processMsg mb tr disk n uid o).trace := by
  unfold processMsg
  split_ifs with h1 h2 h3 h4 h5
  · apply precedes_of_no_q
    intro e he; fin_cases he <;> rfl
  · apply precedes_of_no_q
    intro e he; fin_cases he <;> rfl
  · apply precedes_of_no_q
    intro e he; fin_cases he <;> rfl
  · by_cases hnm : n = m
    · subst hnm
      apply precedes_head_block (isSendOk n) (isMarkEv n)
        [Ev.retrieve n true, Ev.send n true] [Ev.mark n false]
      · intro e he; fin_cases he <;> rfl
      · exact ⟨Ev.send n true, by simp, by simp [isSendOk]⟩
    · apply precedes_of_no_q
      intro e he; fin_cases he <;> simp [isMarkEv, hnm]
  · by_cases hnm : n = m
    · subst hnm
      apply precedes_head_block (isSendOk n) (isMarkEv n)
        [Ev.retrieve n true, Ev.send n true]
        [Ev.mark n true, Ev.delete n false]
      · intro e he; fin_cases he <;> rfl
      · exact ⟨Ev.send n true, by simp, by simp [isSendOk]⟩
    · apply precedes_of_no_q
      intro e he; fin_cases he <;> simp [isMarkEv, hnm]
  · by_cases hnm : n = m
    · subst hnm
      apply precedes_head_block (isSendOk n) (isMarkEv n)
        [Ev.retrieve n true, Ev.send n true]
        [Ev.mark n true, Ev.delete n true]
      · intro e he; fin_cases he <;> rfl
      · exact ⟨Ev.send n true, by simp, by simp [isSendOk]⟩
    · apply precedes_of_no_q
      intro e he; fin_cases he <;> simp [isMarkEv, hnm]

theorem precedes_processMsg_mark_delete (mb : String) (tr : StateData)
    (disk : Disk) (n : Nat) (uid : String) (o : MsgOutcome) (m : Nat) :
    Precedes (isMarkOk m) (isDeleteEv m)
      (processMsg mb tr disk n uid o).trace := by
  unfold processMsg
  split_ifs with h1 h2 h3 h4 h5
  · apply precedes_of_no_q
    intro e he; fin_cases he <;> rfl
  · apply precedes_of_no_q
    intro e he; fin_cases he <;> rfl
  · apply precedes_of_no_q
    intro e he; fin_cases he <;> rfl
  · apply precedes_of_no_q
    intro e he; fin_cases he <;> rfl
  · by_cases hnm : n = m
    · subst hnm
      apply precedes_head_block (isMarkOk n) (isDeleteEv n)
        [Ev.retrieve n true, Ev.send n true, Ev.mark n true]
        [Ev.delete n false]
      · intro e he; fin_cases he <;> rfl
      · exact ⟨Ev.mark n true, by simp, by simp [isMarkOk]⟩
    · apply precedes_of_no_q
      intro e he; fin_cases he <;> simp [isDeleteEv, hnm]
  · by_cases hnm : n = m
    · subst hnm
      apply precedes_head_block (isMarkOk n) (isDeleteEv n)
        [Ev.retrieve n true, Ev.send n true, Ev.mark n true]
        [Ev.delete n true]
      · intro e he; fin_cases he <;> rfl
      · exact ⟨Ev.mark n true, by simp, by simp [isMarkOk]⟩
    · apply precedes_of_no_q
      intro e he; fin_cases he <;> simp [isDeleteEv, hnm]

theorem precedes_processMsgs (mb : String) (tr : StateData) (disk : Disk)
    (msgs : List (Nat × String)) (o : Nat → MsgOutcome) (p q : Ev → Bool)
    (hblock : ∀ tr2 disk2 n uid,
      Precedes p q (processMsg mb tr2 disk2 n uid (o n)).trace) :
    Precedes p q (processMsgs mb tr disk msgs o).trace := by
  induction msgs generalizing tr disk with
  | nil =>
    intro i e hi hq
    simp [processMsgs] at hi
  | cons nu rest ih =>
    obtain ⟨n, uid⟩ := nu
    simp only [processMsgs]
    exact precedes_append _ _ _ _ (hblock tr disk n uid)
      (ih (processMsg mb tr disk n uid (o n)).tr
        (processMsg mb tr disk n uid (o n)).disk)

/-! ### Decomposition and state lemmas for the message loop -/

theorem processMsgs_append (mb : String) (tr : StateData) (disk : Disk)
    (a b : List (Nat × String)) (o : Nat → MsgOutcome) :
    processMsgs mb tr disk (a ++ b) o =
      ⟨(processMsgs mb (processMsgs mb tr disk a o).tr
          (processMsgs mb tr disk a o).disk b o).tr,
       (processMsgs mb (processMsgs mb tr disk a o).tr
          (processMsgs mb tr disk a o).disk b o).disk,
       (processMsgs mb tr disk a o).fetched +
         (processMsgs mb (processMsgs mb tr disk a o).tr
            (processMsgs mb tr disk a o).disk b o).fetched,
       (processMsgs mb tr disk a o).errors +
         (processMsgs mb (processMsgs mb tr disk a o).tr
            (processMsgs mb tr disk a o).disk b o).errors,
       (processMsgs mb tr disk a o).trace ++
         (processMsgs mb (processMsgs mb tr disk a o).tr
            (processMsgs mb tr disk a o).disk b o).trace⟩ := by
  induction a generalizing tr disk with
  | nil => simp [processMsgs]
  | cons nu rest ih =>
    obtain ⟨n, uid⟩ := nu
    simp [processMsgs, ih, Nat.add_assoc, List.append_assoc]

/-- The tracker after one message step is either unchanged or has exactly
this message's uid added. -/
theorem processMsg_tr_cases (mb : String) (tr : StateData) (disk : Disk)
    (n : Nat) (uid : String) (o : MsgOutcome) :
    (processMsg mb tr disk n uid o).tr = tr ∨
    (processMsg mb tr disk n uid o).tr = markMem tr mb uid := by
  unfold processMsg
  split_ifs <;> simp [MarkFetched]

theorem isFetched_processMsg_mono (mb : String) (tr : StateData)
    (disk : Disk) (n : Nat) (uid : String) (o : MsgOutcome)
    (mb' uid' : String) (h : IsFetched tr mb' uid' = true) :
    IsFetched (processMsg mb tr disk n uid o).tr mb' uid' = true := by
  rcases processMsg_tr_cases mb tr disk n uid o with hc | hc
  · rw [hc]; exact h
  · rw [hc]; exact isFetched_markMem_mono tr mb uid mb' uid' h

theorem isFetched_processMsgs_mono (mb : String) (tr : StateData)
    (disk : Disk) (msgs : List (Nat × String)) (o : Nat → MsgOutcome)
    (mb' uid' : String) (h : IsFetched tr mb' uid' = true) :
    IsFetched (processMsgs mb tr disk msgs o).tr mb' uid' = true := by
  induction msgs generalizing tr disk with
  | nil => exact h
  | cons nu rest ih =>
    obtain ⟨n, uid⟩ := nu
    simp only [processMsgs]
    exact ih _ _ (isFetched_processMsg_mono mb tr disk n uid (o n) mb' uid' h)

/-- A run with zero errors leaves every listed uid marked fetched. -/
theorem processMsgs_errors_zero_all_fetched (mb : String) (tr : StateData)
    (disk : Disk) (msgs : List (Nat × String)) (o : Nat → MsgOutcome)
    (h : (processMsgs mb tr disk msgs o).errors = 0) :
    ∀ nu ∈ msgs, IsFetched (processMsgs mb tr disk msgs o).tr mb nu.2 = true := by
  induction msgs generalizing tr disk with
  | nil => intro nu hnu; cases hnu
  | cons nu0 rest ih =>
    obtain ⟨n, uid⟩ := nu0
    simp only [processMsgs] at h ⊢
    have hsplit :
        (processMsg mb tr disk n uid (o n)).errors = 0 ∧
        (processMsgs mb (processMsg mb tr disk n uid (o n)).tr
          (processMsg mb tr disk n uid (o n)).disk rest o).errors = 0 := by
      constructor <;> omega
    intro nu hnu
    rcases List.mem_cons.mp hnu with heq | hmem
    · subst heq
      have hhead : IsFetched (processMsg mb tr disk n uid (o n)).tr mb uid
          = true := by
        have he := hsplit.1
        unfold processMsg at he ⊢
        split_ifs at he ⊢ with h1 h2 h3 h4 h5 <;>
          first
            | exact h1
            | exact absurd he one_ne_zero
            | exact isFetched_markMem_self tr mb uid
      exact isFetched_processMsgs_mono mb _ _ rest o mb uid hhead
    · exact ih _ _ hsplit.2 nu hmem

/-- A run over messages whose uids are all already fetched does nothing:
every message is skipped, nothing is forwarded, no state changes. -/
theorem processMsgs_all_fetched (mb : String) (tr : StateData) (disk : Disk)
    (msgs : List (Nat × String)) (o : Nat → MsgOutcome)
    (h : ∀ nu ∈ msgs, IsFetched tr mb nu.2 = true) :
    processMsgs mb tr disk msgs o =
      ⟨tr, disk, 0, 0, msgs.map (fun nu => Ev.skip nu.1)⟩ := by
  induction msgs with
  | nil => rfl
  | cons nu0 rest ih =>
    obtain ⟨n, uid⟩ := nu0
    rw [List.forall_mem_cons] at h
    have hmsg : processMsg mb tr disk n uid (o n) = ⟨tr, disk, 0, 0, [Ev.skip n]⟩ := by
      unfold processMsg
      rw [if_pos h.1]
    simp only [processMsgs, hmsg, ih h.2, List.map_cons]
    rfl

/-- C1: in every mailbox run, a `MarkFetched` invocation for a message is
strictly preceded by a successful `Send` for that message (conjunct 1), and a
deletion-flag command for a message is strictly preceded by a successful
`MarkFetched` for it (conjunct 2); when `Send` fails for a message, that
message contributes exactly the events retrieve-success and send-failure (so
neither `MarkFetched` nor `Delete` is invoked for it), exactly one error, and
the remaining messages are processed unchanged from the same state
(conjunct 3). -/
theorem claim1_ordering (mb : String) (tr : StateData) (disk : Disk)
    (msgs : List (Nat × String)) (o : Nat → MsgOutcome) :
    (∀ n, Precedes (isSendOk n) (isMarkEv n)
        (processMsgs mb tr disk msgs o).trace) ∧
    (∀ n, Precedes (isMarkOk n) (isDeleteEv n)
        (processMsgs mb tr disk msgs o).trace) ∧
    (∀ (pre : List (Nat × String)) (n : Nat) (uid : String)
        (post : List (Nat × String)),
      IsFetched (processMsgs mb tr disk pre o).tr mb uid = false →
      (o n).retrieveOk = true →
      (o n).sendOk = false →
      processMsgs mb tr disk (pre ++ (n, uid) :: post) o =
        ⟨(processMsgs mb (processMsgs mb tr disk pre o).tr
            (processMsgs mb tr disk pre o).disk post o).tr,
         (processMsgs mb (processMsgs mb tr disk pre o).tr
            (processMsgs mb tr disk pre o).disk post o).disk,
         (processMsgs mb tr disk pre o).fetched +
           (processMsgs mb (processMsgs mb tr disk pre o).tr
              (processMsgs mb tr disk pre o).disk post o).fetched,
         (processMsgs mb tr disk pre o).errors +
           (1 + (processMsgs mb (processMsgs mb tr disk pre o).tr
              (processMsgs mb tr disk pre o).disk post o).errors),
         (processMsgs mb tr disk pre o).trace ++
           (Ev.retrieve n true :: Ev.send n false ::
             (processMsgs mb (processMsgs mb tr disk pre o).tr
                (processMsgs mb tr disk pre o).disk post o).trace)⟩) := by
  refine ⟨?_, ?_, ?_⟩
  · intro n
    exact precedes_processMsgs mb tr disk msgs o _ _
      (fun tr2 disk2 n2 uid2 =>
        precedes_processMsg_send_mark mb tr2 disk2 n2 uid2 (o n2) n)
  · intro n
    exact precedes_processMsgs mb tr disk msgs o _ _
      (fun tr2 disk2 n2 uid2 =>
        precedes_processMsg_mark_delete mb tr2 disk2 n2 uid2 (o n2) n)
  · intro pre n uid post hfetch hret hsend
    have hmsg : processMsg mb (processMsgs mb tr disk pre o).tr
        (processMsgs mb tr disk pre o).disk n uid (o n) =
        ⟨(processMsgs mb tr disk pre o).tr,
         (processMsgs mb tr disk pre o).disk, 0, 1,
         [Ev.retrieve n true, Ev.send n false]⟩ := by
      unfold processMsg
      simp [hfetch, hret, hsend]
    rw [processMsgs_append]
    simp only [processMsgs, hmsg]
    simp

/-- C1 witness: message 1's forward fails, so its events stop at the failed
send and it contributes one error, while message 2 is still processed to
completion. -/
theorem claim1_ordering_witness :
    processMsgs "a@y.com" [] ⟨File.absent, none⟩
        ([] ++ (1, "u1") :: [(2, "u2")]) claim1OracleW =
      ⟨[("a@y.com", ["u2"])], ⟨File.valid [("a@y.com", ["u2"])], none⟩, 1, 1,
        [Ev.retrieve 1 true, Ev.send 1 false, Ev.retrieve 2 true,
          Ev.send 2 true, Ev.mark 2 true, Ev.delete 2 true]⟩ :=
  ((claim1_ordering "a@y.com" [] ⟨File.absent, none⟩ [] claim1OracleW).2.2
      [] 1 "u1" [(2, "u2")] (by decide) (by decide) (by decide)).trans
    (by decide)

/-- When every uid the mailbox lists is fetched at entry, the run forwards
nothing and changes no state, regardless of the run's other outcomes. -/
theorem processMailbox_all_fetched (mb : String) (tr : StateData)
    (disk : Disk) (o : MbOracle)
    (hall : ∀ nu ∈ sortMsgs o.uidMap, IsFetched tr mb nu.2 = true) :
    (processMailbox mb tr disk o).fetched = 0 ∧
    (processMailbox mb tr disk o).tr = tr := by
  cases hd : o.dialOk with
  | false => simp [processMailbox, hd]
  | true =>
    cases hl : o.loginOk with
    | false => simp [processMailbox, hd, hl]
    | true =>
      cases hu : o.uidlOk with
      | false => simp [processMailbox, hd, hl, hu]
      | true =>
        have hrun := processMsgs_all_fetched mb tr disk (sortMsgs o.uidMap)
          o.msg hall
        simp [processMailbox, hd, hl, hu, hrun]

/-- C2: if a mailbox run completes with zero errors, every uid it listed is
recorded in the history store (conjunct 1), and a second run from the
resulting state against the unchanged listing forwards zero new messages
(conjunct 2) and leaves the store unchanged (conjunct 3). -/
theorem claim2_second_run_idempotent (mb : String) (tr : StateData)
    (disk : Disk) (o₁ o₂ : MbOracle) (hsame : o₂.uidMap = o₁.uidMap)
    (herr : (processMailbox mb tr disk o₁).errors = 0) :
    (∀ nu ∈ sortMsgs o₁.uidMap,
        IsFetched (processMailbox mb tr disk o₁).tr mb nu.2 = true) ∧
    (processMailbox mb (processMailbox mb tr disk o₁).tr
        (processMailbox mb tr disk o₁).disk o₂).fetched = 0 ∧
    (processMailbox mb (processMailbox mb tr disk o₁).tr
        (processMailbox mb tr disk o₁).disk o₂).tr
      = (processMailbox mb tr disk o₁).tr := by
  have hd : o₁.dialOk = true := by
    cases hcon : o₁.dialOk
    · rw [processMailbox] at herr
      simp [hcon] at herr
    · rfl
  have hl : o₁.loginOk = true := by
    cases hcon : o₁.loginOk
    · rw [processMailbox] at herr
      simp [hd, hcon] at herr
    · rfl
  have hu : o₁.uidlOk = true := by
    cases hcon : o₁.uidlOk
    · rw [processMailbox] at herr
      simp [hd, hl, hcon] at herr
    · rfl
  have hrun : processMailbox mb tr disk o₁ =
      ⟨(processMsgs mb tr disk (sortMsgs o₁.uidMap) o₁.msg).tr,
       (processMsgs mb tr disk (sortMsgs o₁.uidMap) o₁.msg).disk,
       (processMsgs mb tr disk (sortMsgs o₁.uidMap) o₁.msg).fetched,
       (processMsgs mb tr disk (sortMsgs o₁.uidMap) o₁.msg).errors,
       Ev.login :: Ev.uidl ::
         ((processMsgs mb tr disk (sortMsgs o₁.uidMap) o₁.msg).trace ++
           [Ev.quit])⟩ := by
    rw [processMailbox]
    simp [hd, hl, hu]
  have herr2 : (processMsgs mb tr disk (sortMsgs o₁.uidMap) o₁.msg).errors
      = 0 := by
    rw [hrun] at herr
    exact herr
  have hall := processMsgs_errors_zero_all_fetched mb tr disk
    (sortMsgs o₁.uidMap) o₁.msg herr2
  have hall2 : ∀ nu ∈ sortMsgs o₂.uidMap,
      IsFetched (processMsgs mb tr disk (sortMsgs o₁.uidMap) o₁.msg).tr mb
        nu.2 = true := by
    rw [hsame]
    exact hall
  have hsecond := processMailbox_all_fetched mb
    (processMsgs mb tr disk (sortMsgs o₁.uidMap) o₁.msg).tr
    (processMsgs mb tr disk (sortMsgs o₁.uidMap) o₁.msg).disk o₂ hall2
  refine ⟨?_, ?_, ?_⟩
  · rw [hrun]
    exact hall
  · rw [hrun]
    exact hsecond.1
  · rw [hrun]
    exact hsecond.2

/-- C2 witness: a one-message listing processed with all calls succeeding,
then re-run against the same listing: the uid is recorded, the second run
forwards nothing and leaves the store as it was. -/
theorem claim2_second_run_idempotent_witness :
    (∀ nu ∈ sortMsgs allOkMb.uidMap,
        IsFetched (processMailbox "a@y.com" [] ⟨File.absent, none⟩
          allOkMb).tr "a@y.com" nu.2 = true) ∧
    (processMailbox "a@y.com"
        (processMailbox "a@y.com" [] ⟨File.absent, none⟩ allOkMb).tr
        (processMailbox "a@y.com" [] ⟨File.absent, none⟩ allOkMb).disk
        allOkMb).fetched = 0 ∧
    (processMailbox "a@y.com"
        (processMailbox "a@y.com" [] ⟨File.absent, none⟩ allOkMb).tr
        (processMailbox "a@y.com" [] ⟨File.absent, none⟩ allOkMb).disk
        allOkMb).tr
      = (processMailbox "a@y.com" [] ⟨File.absent, none⟩ allOkMb).tr :=
  claim2_second_run_idempotent "a@y.com" [] ⟨File.absent, none⟩ allOkMb
    allOkMb rfl (by decide)

/-- C6 counterexample: a mailbox aborted on an authentication failure still
issues the graceful termination command — the deferred `client.Quit()` runs
on every path after a successful dial — contradicting the claim that the
transport is closed directly without the graceful termination and that only
a mailbox reaching the Closing state issues it. -/
theorem claim6_counterexample :
    loginFailMb.loginOk = false ∧
    (processMailbox "a@y.com" [] ⟨File.absent, none⟩ loginFailMb).errors
      = 1 ∧
    Ev.quit ∈
      (processMailbox "a@y.com" [] ⟨File.absent, none⟩ loginFailMb).trace := by
  decide

/-- C6 amended: a mailbox aborted on an authentication or listing failure
still sends the graceful termination command via the deferred `Quit`; but at
that point no deletion-flag command has been issued in the session (the
trace holds no delete event), so no messages are removed on that server, and
the store is untouched. -/
theorem claim6_abort_quits_cleanly (mb : String) (tr : StateData)
    (disk : Disk) (o : MbOracle) :
    (o.dialOk = true → o.loginOk = false →
      processMailbox mb tr disk o =
        ⟨tr, disk, 0, 1, [Ev.loginErr, Ev.quit]⟩) ∧
    (o.dialOk = true → o.loginOk = true → o.uidlOk = false →
      processMailbox mb tr disk o =
        ⟨tr, disk, 0, 1, [Ev.login, Ev.uidlErr, Ev.quit]⟩) := by
  constructor
  · intro hd hl
    rw [processMailbox]
    simp [hd, hl]
  · intro hd hl hu
    rw [processMailbox]
    simp [hd, hl, hu]

/-- C6 witness: the login-failure and listing-failure aborts at a concrete
state, both ending in the graceful termination with no delete events. -/
theorem claim6_abort_quits_cleanly_witness :
    processMailbox "a@y.com" [] ⟨File.absent, none⟩ loginFailMb
      = ⟨[], ⟨File.absent, none⟩, 0, 1, [Ev.loginErr, Ev.quit]⟩ ∧
    processMailbox "a@y.com" [] ⟨File.absent, none⟩ uidlFailMb
      = ⟨[], ⟨File.absent, none⟩, 0, 1, [Ev.login, Ev.uidlErr, Ev.quit]⟩ :=
  ⟨(claim6_abort_quits_cleanly "a@y.com" [] ⟨File.absent, none⟩
      loginFailMb).1 rfl rfl,
   (claim6_abort_quits_cleanly "a@y.com" [] ⟨File.absent, none⟩
      uidlFailMb).2 rfl rfl rfl⟩

end Yatogm
